import Mathlib

/-!
# Verification of the EEG acquisition-and-signal-processing pipeline

Shallow embedding of `src/src-tauri/src/main.rs` (the Tauri backend of the
`tamara` application).  Floating-point values (`f32`/`f64`) are modelled as
exact rationals `ℚ`; the only irrational operation in the pipeline, the final
`sqrt` of the accumulated band powers, is modelled by `Real.sqrt` on `ℝ`.
External library effects (LSL stream resolution, inlet creation, sample pulls,
and the rustfft forward transform) are modelled as explicit environment
parameters, since their code is not part of this repository.
-/

/-- `EEGSample` (main.rs lines 15-19). -/
structure EEGSample where
  timestamp : ℚ
  channels : List ℚ
  deriving DecidableEq

/-- `FilteredEEGSample` (main.rs lines 21-25). -/
structure FilteredEEGSample where
  timestamp : ℚ
  channels : List ℚ
  deriving DecidableEq

/-- `FrequencyBands` (main.rs lines 27-36).  The five band magnitudes are
square roots of rational power sums, hence live in `ℝ`. -/
structure FrequencyBands where
  timestamp : ℚ
  channel : ℕ
  alpha : ℝ
  beta : ℝ
  theta : ℝ
  delta : ℝ
  gamma : ℝ

/-- `LSLStreamInfo` (main.rs lines 38-50). -/
structure LSLStreamInfo where
  name : String
  channel_count : ℕ
  sample_rate : ℚ
  is_connected : Bool
  metadata : String
  stream_type : String
  source_id : String
  channel_names : List String
  manufacturer : String
  device_model : String
  deriving DecidableEq

/-- `ButterworthFilter` (main.rs lines 59-66). -/
structure ButterworthFilter where
  order : ℕ
  a : List ℚ
  b : List ℚ
  x_history : List (List ℚ)
  y_history : List (List ℚ)
  deriving DecidableEq

/-- `ButterworthFilter::new` (main.rs lines 69-82): fixed 4th-order bandpass
coefficients, per-channel zeroed histories of length `order + 1`. -/
def ButterworthFilter.new (order : ℕ) (channel_count : ℕ) : ButterworthFilter :=
  { order := order
    a := [1.0, -3.1806, 3.8612, -2.1122, 0.4383]
    b := [0.0067, 0.0, -0.0134, 0.0, 0.0067]
    x_history := List.replicate channel_count (List.replicate (order + 1) 0)
    y_history := List.replicate channel_count (List.replicate (order + 1) 0) }

/-- One per-channel step of `ButterworthFilter::process` (main.rs lines 93-115).
The source shifts both history arrays up by one index (so index 0 of the
output history still holds its previous value while the recurrence is
evaluated), writes the new sample at input-history index 0, evaluates the
recurrence with per-index bounds guards, and finally stores the new output at
output-history index 0.  Shifting a list `h` and writing `v` at index 0 is
`v :: h.dropLast`. -/
def ButterworthFilter.step (b : List ℚ) (a : List ℚ) (xh : List ℚ) (yh : List ℚ)
    (sample : ℚ) : ℚ × List ℚ × List ℚ :=
  let xh' := sample :: xh.dropLast
  let yhs := yh.headD 0 :: yh.dropLast
  let y0 := (List.range b.length).foldl
    (fun y i => if i < xh'.length then y + b.getD i 0 * xh'.getD i 0 else y) 0
  let y := (List.range' 1 (a.length - 1)).foldl
    (fun y i => if i < yhs.length then y - a.getD i 0 * yhs.getD i 0 else y) y0
  (y, xh', y :: yh.dropLast)

/-- `NotchFilter` (main.rs lines 122-129). -/
structure NotchFilter where
  b : List ℚ
  a : List ℚ
  x_history : List (List ℚ)
  y_history : List (List ℚ)
  deriving DecidableEq

/-- `NotchFilter::new` (main.rs lines 132-143): fixed 50 Hz notch
coefficients, per-channel zeroed histories of length 3. -/
def NotchFilter.new (channel_count : ℕ) : NotchFilter :=
  { b := [0.9565, -1.9131, 0.9565]
    a := [1.0, -1.9131, 0.9131]
    x_history := List.replicate channel_count (List.replicate 3 0)
    y_history := List.replicate channel_count (List.replicate 3 0) }

/-- One per-channel step of `NotchFilter::process` (main.rs lines 154-172).
Identical shift discipline to the Butterworth step (the source hard-codes the
history length 3 in its shift loop, which matches the constructed histories);
the recurrence sums carry no per-index bounds guards in the source. -/
def NotchFilter.step (b : List ℚ) (a : List ℚ) (xh : List ℚ) (yh : List ℚ)
    (sample : ℚ) : ℚ × List ℚ × List ℚ :=
  let xh' := sample :: xh.dropLast
  let yhs := yh.headD 0 :: yh.dropLast
  let y0 := (List.range b.length).foldl
    (fun y i => y + b.getD i 0 * xh'.getD i 0) 0
  let y := (List.range' 1 (a.length - 1)).foldl
    (fun y i => y - a.getD i 0 * yhs.getD i 0) y0
  (y, xh', y :: yh.dropLast)

/-- The channel loop shared (structurally) by `ButterworthFilter::process`
(main.rs lines 84-119) and `NotchFilter::process` (main.rs lines 145-176):
iterate over the input values with their positions; a position at or beyond
the input-history count is passed through unchanged (`output.push(sample);
continue`), otherwise the per-channel step runs and both histories for that
channel are replaced. -/
def processLoop (step : List ℚ → List ℚ → ℚ → ℚ × List ℚ × List ℚ) :
    List (List ℚ) → List (List ℚ) → ℕ → List ℚ →
      List ℚ × List (List ℚ) × List (List ℚ)
  | xh, yh, _, [] => ([], xh, yh)
  | xh, yh, ch, sample :: rest =>
    if ch < xh.length then
      let r := step (xh.getD ch []) (yh.getD ch []) sample
      let res := processLoop step (xh.set ch r.2.1) (yh.set ch r.2.2) (ch + 1) rest
      (r.1 :: res.1, res.2)
    else
      let res := processLoop step xh yh (ch + 1) rest
      (sample :: res.1, res.2)

/-- `ButterworthFilter::process` (main.rs lines 84-119). -/
def ButterworthFilter.process (f : ButterworthFilter) (input : List ℚ) :
    List ℚ × ButterworthFilter :=
  let r := processLoop (ButterworthFilter.step f.b f.a) f.x_history f.y_history 0 input
  (r.1, { f with x_history := r.2.1, y_history := r.2.2 })

/-- `NotchFilter::process` (main.rs lines 145-176). -/
def NotchFilter.process (f : NotchFilter) (input : List ℚ) :
    List ℚ × NotchFilter :=
  let r := processLoop (NotchFilter.step f.b f.a) f.x_history f.y_history 0 input
  (r.1, { f with x_history := r.2.1, y_history := r.2.2 })

/-- `LSLConnection` (main.rs lines 180-186). -/
structure LSLConnection where
  stream_info : Option LSLStreamInfo
  channel_count : ℕ
  is_real_connection : Bool
  stream_name : Option String
  deriving DecidableEq

/-- `LSLConnection::new` (main.rs lines 188-197): default channel count 8. -/
def LSLConnection.new : LSLConnection :=
  { stream_info := none
    channel_count := 8
    is_real_connection := false
    stream_name := none }

/-- `EEGProcessor` state (main.rs lines 199-207).  The `sample_rate` and
`buffer_size` fields are set once in `EEGProcessor::new` and never mutated, so
they are modelled as the constants `sample_rate` and `buffer_size` below. -/
structure EEGProcessor where
  channel_buffers : List (List ℚ)
  filtered_buffers : List (List ℚ)
  lsl_connection : LSLConnection
  bandpass_filter : Option ButterworthFilter
  notch_filter : Option NotchFilter
  deriving DecidableEq

/-- `sample_rate: 250.0` (main.rs line 212). -/
def sample_rate : ℚ := 250.0

/-- `buffer_size: 512` (main.rs line 213). -/
def buffer_size : ℕ := 512

/-- `EEGProcessor::new` (main.rs lines 210-220). -/
def EEGProcessor.new : EEGProcessor :=
  { channel_buffers := List.replicate 8 []
    filtered_buffers := List.replicate 8 []
    lsl_connection := LSLConnection.new
    bandpass_filter := none
    notch_filter := none }

/-- The artifact-rejection clip applied inline in `apply_real_time_filters`
(main.rs lines 561-565 and 574-577): a value whose magnitude exceeds 300 is
replaced by `signum * 300` (for such values `signum` is `1` when positive and
`-1` when negative); all other values are untouched. -/
def clipArtifact (v : ℚ) : ℚ :=
  if |v| > 300 then (if 0 < v then 300 else -300) else v

/-- `EEGProcessor::apply_real_time_filters` (main.rs lines 548-586).  When
both filters are initialized: bandpass, then notch, then clip each channel.
Otherwise the fallback: clip each channel, then attenuate by `0.95`.  The
method mutates the filter state through `&self`; the updated state is the
second component. -/
def EEGProcessor.apply_real_time_filters (p : EEGProcessor) (sample : EEGSample) :
    FilteredEEGSample × EEGProcessor :=
  match p.bandpass_filter, p.notch_filter with
  | some bandpass, some notch =>
    let bp := bandpass.process sample.channels
    let nt := notch.process bp.1
    let filtered_channels := nt.1.map clipArtifact
    ({ timestamp := sample.timestamp, channels := filtered_channels },
     { p with bandpass_filter := some bp.2, notch_filter := some nt.2 })
  | _, _ =>
    let filtered_channels := sample.channels.map (fun v => clipArtifact v * 0.95)
    ({ timestamp := sample.timestamp, channels := filtered_channels }, p)

/-- The per-channel ring-buffer push of `update_buffers` (main.rs lines
595-607): append the value; if the resulting length exceeds the capacity,
remove the element at index 0. -/
def pushEvict (cap : ℕ) (buf : List ℚ) (v : ℚ) : List ℚ :=
  let b := buf ++ [v]
  if cap < b.length then b.drop 1 else b

/-- `EEGProcessor::update_buffers` (main.rs lines 588-609): iterate over the
zip of raw and filtered channel values with their indices; each index guarded
by the respective buffer-list length. -/
def EEGProcessor.update_buffers (p : EEGProcessor) (sample : EEGSample)
    (filtered_sample : FilteredEEGSample) : EEGProcessor :=
  let step := fun (bufs : List (List ℚ) × List (List ℚ)) (iv : ℕ × ℚ × ℚ) =>
    let raw1 := if iv.1 < bufs.1.length
      then bufs.1.set iv.1 (pushEvict buffer_size (bufs.1.getD iv.1 []) iv.2.1)
      else bufs.1
    let flt1 := if iv.1 < bufs.2.length
      then bufs.2.set iv.1 (pushEvict buffer_size (bufs.2.getD iv.1 []) iv.2.2)
      else bufs.2
    (raw1, flt1)
  let r := ((sample.channels.zip filtered_sample.channels).enum).foldl step
    (p.channel_buffers, p.filtered_buffers)
  { p with channel_buffers := r.1, filtered_buffers := r.2 }

/-- The five running band-power accumulators of `analyze_frequency_bands`
(main.rs lines 633-637). -/
structure BandPowerAcc where
  alpha : ℚ
  beta : ℚ
  theta : ℚ
  delta : ℚ
  gamma : ℚ
  deriving DecidableEq

/-- `complex.norm_sqr()` on an FFT coefficient represented as a pair of
rational real and imaginary parts (main.rs line 641). -/
def normSq (c : ℚ × ℚ) : ℚ := c.1 * c.1 + c.2 * c.2

/-- `freq_resolution = sample_rate / buffer_size` (main.rs line 632).  Both
operands and the quotient `250/512` are exactly representable in `f32`, as is
`i * freq_resolution` for every coefficient index `i < 2^17`, so the rational
model computes the same frequencies as the source. -/
def freq_resolution : ℚ := sample_rate / (buffer_size : ℚ)

/-- The `match freq` accumulation of `analyze_frequency_bands` (main.rs lines
643-650), with the source's guard order (delta, theta, alpha, beta, gamma);
any frequency matching no guard falls through to `_ => {}`. -/
def accumBand (acc : BandPowerAcc) (freq : ℚ) (power : ℚ) : BandPowerAcc :=
  if 0.5 ≤ freq ∧ freq < 4.0 then { acc with delta := acc.delta + power }
  else if 4.0 ≤ freq ∧ freq < 8.0 then { acc with theta := acc.theta + power }
  else if 8.0 ≤ freq ∧ freq < 12.0 then { acc with alpha := acc.alpha + power }
  else if 13.0 ≤ freq ∧ freq < 30.0 then { acc with beta := acc.beta + power }
  else if 30.0 ≤ freq ∧ freq < 100.0 then { acc with gamma := acc.gamma + power }
  else acc

/-- The per-channel accumulation loop of `analyze_frequency_bands` (main.rs
lines 639-651): fold `accumBand` over the enumerated FFT coefficients. -/
def channelBandAcc (coeffs : List (ℚ × ℚ)) : BandPowerAcc :=
  coeffs.enum.foldl
    (fun acc ic => accumBand acc ((ic.1 : ℚ) * freq_resolution) (normSq ic.2))
    ⟨0, 0, 0, 0, 0⟩

/-- Construction of one `FrequencyBands` record (main.rs lines 653-661): each
reported magnitude is the square root of the accumulated power sum. -/
noncomputable def mkFrequencyBands (timestamp : ℚ) (channel : ℕ)
    (acc : BandPowerAcc) : FrequencyBands :=
  { timestamp := timestamp
    channel := channel
    alpha := Real.sqrt (acc.alpha : ℝ)
    beta := Real.sqrt (acc.beta : ℝ)
    theta := Real.sqrt (acc.theta : ℝ)
    delta := Real.sqrt (acc.delta : ℝ)
    gamma := Real.sqrt (acc.gamma : ℝ) }

/-- `EEGProcessor::analyze_frequency_bands` (main.rs lines 611-665): for each
filtered buffer (with its channel index), skip it when its length is below
`buffer_size`, otherwise run the forward FFT and accumulate band powers.  The
rustfft transform is external library code and is passed in as the `fft`
parameter.  The method takes `&self` and only reads the buffers; the returned
second component is the (unchanged) processor state, mirroring the method
call on the shared state. -/
noncomputable def EEGProcessor.analyze_frequency_bands (p : EEGProcessor)
    (fft : List ℚ → List (ℚ × ℚ)) (timestamp : ℚ) :
    List FrequencyBands × EEGProcessor :=
  let results := p.filtered_buffers.enum.foldl
    (fun results cb =>
      if cb.2.length < buffer_size then results
      else results ++ [mkFrequencyBands timestamp cb.1 (channelBandAcc (fft cb.2))])
    []
  (results, p)

/-- Character-list analogue of `str::starts_with` for the containment test
below. -/
def charsBeginWith : List Char → List Char → Bool
  | _, [] => true
  | [], _ :: _ => false
  | c :: cs, d :: ds => c == d && charsBeginWith cs ds

/-- Character-list substring containment (Rust `str::contains`). -/
def charsContain : List Char → List Char → Bool
  | [], pat => pat.isEmpty
  | c :: cs, pat => charsBeginWith (c :: cs) pat || charsContain cs pat

/-- Rust `str::contains` on strings. -/
def strContains (hay : String) (pat : String) : Bool :=
  charsContain hay.toList pat.toList

/-- Rust `str::to_lowercase` (external std call), modelled character-wise;
for the ASCII identifiers the pipeline compares this agrees with Unicode
lowercasing. -/
def strToLower (s : String) : String :=
  ⟨s.data.map Char.toLower⟩

/-- One advertised LSL stream as observed during resolution, together with
the environment's answer to `StreamInlet::new` for it (`none` means inlet
creation succeeds, `some e` means it fails with error text `e`).  These data
come from the external liblsl library, modelled as inputs. -/
structure StreamCandidate where
  hostname : String
  stream_type : String
  channel_count : ℕ
  nominal_srate : ℚ
  source_id : String
  inlet_result : Option String
  deriving DecidableEq

/-- The stream-matching closure of `connect_to_lsl` (main.rs lines 247-262):
exact lowercased hostname equality, containment of the target in the source
id or hostname, and the two vendor-specific alias rules.  (The source also
lowercases the stream type but never uses it in the predicate.) -/
def connectMatches (target : String) (s : StreamCandidate) : Bool :=
  let hostname := strToLower s.hostname
  let source_id := strToLower s.source_id
  let t := strToLower target
  hostname == t || strContains source_id t || strContains hostname t ||
    (t == "123" && (hostname == "123" || strContains source_id "unicorn")) ||
    (strContains t "unicorn" &&
      (strContains hostname "unicorn" || strContains source_id "unicorn"))

/-- The `while channel_names.len() < channel_count` padding loop plus the
final `truncate` of `extract_real_channel_names_sync` (main.rs lines
443-448): pad with generic numbered names, then truncate to the channel
count. -/
def padChannelNames (names : List String) (channel_count : ℕ) : List String :=
  (names ++ (List.range (channel_count - names.length)).map
      (fun i => "Ch" ++ toString (names.length + i + 1))).take channel_count

/-- `EEGProcessor::extract_real_channel_names_sync` (main.rs lines 384-452).
Each device branch copies its known layout up to
`channel_count.min(layout.len())` entries, which is `List.take channel_count`
on the layout list. -/
def extract_real_channel_names_sync (s : StreamCandidate) (channel_count : ℕ) :
    List String :=
  let source_id := strToLower s.source_id
  let stream_name := strToLower s.hostname
  let base :=
    if strContains source_id "unicorn" || strContains stream_name "unicorn" ||
        stream_name == "123" then
      (["Fz", "C3", "Cz", "C4", "Pz", "PO7", "Oz", "PO8",
        "ACC_X", "ACC_Y", "ACC_Z", "GYR_X", "GYR_Y", "GYR_Z",
        "Battery", "Counter", "Validation"]).take channel_count
    else if strContains source_id "openbci" || strContains stream_name "openbci" then
      (if channel_count ≤ 8 then
        ["Fp1", "Fp2", "C3", "C4", "P7", "P8", "O1", "O2"]
      else
        ["Fp1", "Fp2", "F7", "F3", "F4", "F8", "C3", "Cz",
         "C4", "T7", "T8", "P7", "P3", "Pz", "P4", "P8"]).take channel_count
    else if strContains source_id "emotiv" || strContains stream_name "emotiv" then
      (["AF3", "F7", "F3", "FC5", "T7", "P7", "O1", "O2",
        "P8", "T8", "FC6", "F4", "F8", "AF4"]).take channel_count
    else
      (List.range channel_count).map (fun i => "Ch" ++ toString (i + 1))
  padChannelNames base channel_count

/-- `EEGProcessor::extract_device_info_sync` (main.rs lines 454-472). -/
def extract_device_info_sync (s : StreamCandidate) : String × String :=
  let source_id := strToLower s.source_id
  let stream_name := strToLower s.hostname
  if strContains source_id "unicorn" || strContains stream_name "unicorn" ||
      stream_name == "123" then
    ("g.tec medical engineering GmbH", "Unicorn Hybrid Black")
  else if strContains source_id "openbci" || strContains stream_name "openbci" then
    ("OpenBCI", "Cyton Board")
  else if strContains source_id "emotiv" || strContains stream_name "emotiv" then
    ("Emotiv Inc.", "EPOC+")
  else if strContains source_id "neurosky" || strContains stream_name "neurosky" then
    ("NeuroSky", "MindWave")
  else if strContains source_id "muse" || strContains stream_name "muse" then
    ("InteraXon", "Muse Headband")
  else
    ("Unknown Manufacturer", "EEG Device")

/-- The metadata string of `connect_to_lsl` (main.rs lines 280-288); numeric
formatting is abstracted by `toString` and the log-emoji prefix is elided. -/
def mkMetadata (stream_type : String) (source_id : String) (channel_count : ℕ)
    (srate : ℚ) (manufacturer : String) (device_model : String) : String :=
  "REAL LSL DATA - Type: " ++ stream_type ++ " | Source: " ++ source_id ++
    " | Channels: " ++ toString channel_count ++ " | Rate: " ++ toString srate ++
    " Hz | Manufacturer: " ++ manufacturer ++ " | Model: " ++ device_model

/-- Outcome of `resolve_streams(10.0)` (external liblsl call), modelled as an
input to `connect_to_lsl`. -/
inductive ResolveOutcome where
  | ok (streams : List StreamCandidate)
  | err (msg : String)
  deriving DecidableEq

/-- `EEGProcessor::connect_to_lsl` (main.rs lines 222-382).  Resolution
failure, no matching stream, and inlet failure each return the corresponding
descriptive error and leave the processor state untouched; only the success
path (lines 352-371) updates the connection, replaces both buffer lists with
`channel_count` empty buffers, and initializes both filters.  The best-effort
diagnostic pull after inlet creation (lines 297-306) affects no state and no
result, and is therefore not modelled.  Error texts elide the log-emoji
prefixes and quote characters of the source's format strings. -/
def EEGProcessor.connect_to_lsl (p : EEGProcessor) (stream_name : String)
    (env : ResolveOutcome) : Except String LSLStreamInfo × EEGProcessor :=
  match env with
  | .err e =>
    (.error ("Failed to resolve LSL streams: " ++ e ++
      ". Make sure your EEG device is connected and streaming via LSL."), p)
  | .ok streams =>
    match streams.find? (fun s => connectMatches stream_name s) with
    | none =>
      let available_names := streams.map (fun s =>
        s.hostname ++ " (type: " ++ s.stream_type ++ ", source: " ++
          s.source_id ++ ")")
      (.error ("No LSL stream found with name: " ++ stream_name ++
        ". Available streams: " ++ String.intercalate ", " available_names), p)
    | some stream_info =>
      let channel_count := stream_info.channel_count
      let stream_type := stream_info.stream_type
      let source_id := stream_info.source_id
      let channel_names := extract_real_channel_names_sync stream_info channel_count
      let dev := extract_device_info_sync stream_info
      let metadata := mkMetadata stream_type source_id channel_count
        stream_info.nominal_srate dev.1 dev.2
      match stream_info.inlet_result with
      | some e =>
        (.error ("Failed to create inlet for LSL stream " ++ stream_name ++
          ": " ++ e), p)
      | none =>
        let info : LSLStreamInfo :=
          { name := stream_info.hostname
            channel_count := channel_count
            sample_rate := stream_info.nominal_srate
            is_connected := true
            metadata := metadata
            stream_type := stream_type
            source_id := source_id
            channel_names := channel_names
            manufacturer := dev.1
            device_model := dev.2 }
        (.ok info,
         { channel_buffers := List.replicate channel_count []
           filtered_buffers := List.replicate channel_count []
           lsl_connection :=
             { stream_info := some info
               channel_count := channel_count
               is_real_connection := true
               stream_name := some stream_name }
           bandpass_filter := some (ButterworthFilter.new 4 channel_count)
           notch_filter := some (NotchFilter.new channel_count) })

/-- `EEGProcessor::disconnect_lsl` (main.rs lines 474-485): clears the
connection (resetting the channel count to 8), drops both filters, and leaves
both buffer lists untouched. -/
def EEGProcessor.disconnect_lsl (p : EEGProcessor) : EEGProcessor :=
  { p with
    lsl_connection :=
      { stream_info := none
        channel_count := 8
        is_real_connection := false
        stream_name := none }
    bandpass_filter := none
    notch_filter := none }

/-- `EEGProcessor::get_lsl_sample` (main.rs lines 488-546).  Returns `none`
immediately without a real connection or a bound stream name.  The blocking
re-resolution, matching, inlet creation and pull (lines 501-543) are external
liblsl effects modelled by the `pull` parameter: `none` when any of those
steps yields no sample (every failure arm of the source returns `None`),
`some (values, ts)` when a sample with values `values` and LSL timestamp `ts`
is pulled.  Values beyond the known channel count are ignored; missing values
leave the zero fill (lines 522-525). -/
def EEGProcessor.get_lsl_sample (p : EEGProcessor)
    (pull : Option (List ℚ × ℚ)) : Option EEGSample :=
  if p.lsl_connection.is_real_connection = false then none
  else
    match p.lsl_connection.stream_name with
    | none => none
    | some _ =>
      match pull with
      | none => none
      | some sc =>
        let channel_count := p.lsl_connection.channel_count
        let channels := (List.range channel_count).map
          (fun i => if i < sc.1.length then sc.1.getD i 0 else 0)
        some { timestamp := sc.2, channels := channels }

/-- One event emitted to the host shell by the processing loop
(`emit_all` calls, main.rs lines 779, 786, 795). -/
inductive Emission where
  | eeg_sample (s : EEGSample)
  | filtered_eeg_sample (s : FilteredEEGSample)
  | frequency_bands (bands : List FrequencyBands)

/-- The mutable counters of the processing loop of `start_eeg_processing`
(main.rs lines 746-748). -/
structure LoopCounters where
  sample_count : ℕ
  last_fft_time : ℕ
  last_data_log : ℕ
  deriving DecidableEq

/-- `(timestamp * 1000.0) as u64` (main.rs lines 764, 792): for the
nonnegative elapsed timestamps the `as` cast is the floor. -/
def msOf (t : ℚ) : ℕ := (⌊t * 1000⌋).toNat

/-- One iteration of the processing loop of `start_eeg_processing` (main.rs
lines 750-811).  Inputs: the processor state, the loop counters, the elapsed
time `timestamp` computed at the top of the iteration (line 754), the
external pull outcome for this tick, and the external FFT.  Output: the new
processor state, the new counters, and the emissions of this tick in source
order (raw sample, filtered sample, frequency bands).  `u64` subtractions on
millisecond counters are modelled by truncated `ℕ` subtraction (elapsed time
is monotone, so the minuend is never smaller in a real run).  In the
non-real-connection branch the source only logs a warning and sleeps (lines
804-808); with no real connection the real branch's `get_lsl_sample` returns
`None` and the iteration likewise emits nothing and changes nothing (lines
800-803). -/
noncomputable def tick (p : EEGProcessor) (c : LoopCounters) (timestamp : ℚ)
    (pull : Option (List ℚ × ℚ)) (fft : List ℚ → List (ℚ × ℚ)) :
    EEGProcessor × LoopCounters × List Emission :=
  let sample_count := c.sample_count + 1
  if p.lsl_connection.is_real_connection then
    match p.get_lsl_sample pull with
    | some lsl_sample =>
      let current_time_ms := msOf timestamp
      let last_data_log :=
        if 5000 ≤ current_time_ms - c.last_data_log then current_time_ms
        else c.last_data_log
      let fr := p.apply_real_time_filters lsl_sample
      let p2 := fr.2.update_buffers lsl_sample fr.1
      let sampleEmissions :=
        if sample_count % 2 = 0 then
          [Emission.eeg_sample lsl_sample, Emission.filtered_eeg_sample fr.1]
        else []
      if 250 ≤ current_time_ms - c.last_fft_time then
        let bands := p2.analyze_frequency_bands fft timestamp
        (bands.2,
         { sample_count := sample_count
           last_fft_time := current_time_ms
           last_data_log := last_data_log },
         sampleEmissions ++ [Emission.frequency_bands bands.1])
      else
        (p2,
         { sample_count := sample_count
           last_fft_time := c.last_fft_time
           last_data_log := last_data_log },
         sampleEmissions)
    | none => (p, { c with sample_count := sample_count }, [])
  else
    (p, { c with sample_count := sample_count }, [])

/-! ## Properties of the filter channel loop -/

/-- The channel loop emits exactly one output value per input value. -/
theorem processLoop_length (step : List ℚ → List ℚ → ℚ → ℚ × List ℚ × List ℚ) :
    ∀ (input : List ℚ) (xh yh : List (List ℚ)) (ch : ℕ),
      (processLoop step xh yh ch input).1.length = input.length := by
  intro input
  induction input with
  | nil => intro xh yh ch; simp [processLoop]
  | cons sample rest ih =>
    intro xh yh ch
    simp only [processLoop]
    by_cases h : ch < xh.length
    · simp [h, ih]
    · simp [h, ih]

/-- The channel loop never changes the number of per-channel histories. -/
theorem processLoop_histories_length
    (step : List ℚ → List ℚ → ℚ → ℚ × List ℚ × List ℚ) :
    ∀ (input : List ℚ) (xh yh : List (List ℚ)) (ch : ℕ),
      (processLoop step xh yh ch input).2.1.length = xh.length ∧
      (processLoop step xh yh ch input).2.2.length = yh.length := by
  intro input
  induction input with
  | nil => intro xh yh ch; simp [processLoop]
  | cons sample rest ih =>
    intro xh yh ch
    simp only [processLoop]
    by_cases h : ch < xh.length
    · rw [if_pos h]
      have h1 := ih (xh.set ch ((step (xh.getD ch []) (yh.getD ch []) sample).2.1))
        (yh.set ch ((step (xh.getD ch []) (yh.getD ch []) sample).2.2)) (ch + 1)
      exact ⟨h1.1.trans (by simp), h1.2.trans (by simp)⟩
    · rw [if_neg h]
      exact ⟨(ih xh yh (ch + 1)).1, (ih xh yh (ch + 1)).2⟩

/-- Positions at or beyond the channel count are passed through unchanged. -/
theorem processLoop_getD (step : List ℚ → List ℚ → ℚ → ℚ × List ℚ × List ℚ) :
    ∀ (input : List ℚ) (xh yh : List (List ℚ)) (ch j : ℕ),
      xh.length ≤ ch + j → j < input.length →
      (processLoop step xh yh ch input).1.getD j 0 = input.getD j 0 := by
  intro input
  induction input with
  | nil => intro xh yh ch j _ hj; simp at hj
  | cons sample rest ih =>
    intro xh yh ch j hlen hj
    simp only [processLoop]
    by_cases h : ch < xh.length
    · rw [if_pos h]
      cases j with
      | zero => omega
      | succ j' =>
        simp only [List.getD_cons_succ]
        exact ih _ _ (ch + 1) j' (by simp [List.length_set]; omega)
          (by simpa using Nat.lt_of_succ_lt_succ hj)
    · rw [if_neg h]
      cases j with
      | zero => simp
      | succ j' =>
        simp only [List.getD_cons_succ]
        exact ih xh yh (ch + 1) j' (by omega)
          (by simpa using Nat.lt_of_succ_lt_succ hj)

/-- **C9**: for every input slice whose length exceeds the filter's channel
count, both `ButterworthFilter.process` and `NotchFilter.process` return the
excess channel values unchanged and leave the per-channel history count
intact (the model is total, so no panic is possible); the output has the same
length as the input for any input length, including zero. -/
theorem filters_process_excess_passthrough :
    (∀ (f : ButterworthFilter) (input : List ℚ),
      (f.process input).1.length = input.length ∧
      (f.process input).2.x_history.length = f.x_history.length ∧
      (f.process input).2.y_history.length = f.y_history.length ∧
      (∀ j, f.x_history.length ≤ j → j < input.length →
        (f.process input).1.getD j 0 = input.getD j 0)) ∧
    (∀ (f : NotchFilter) (input : List ℚ),
      (f.process input).1.length = input.length ∧
      (f.process input).2.x_history.length = f.x_history.length ∧
      (f.process input).2.y_history.length = f.y_history.length ∧
      (∀ j, f.x_history.length ≤ j → j < input.length →
        (f.process input).1.getD j 0 = input.getD j 0)) := by
  constructor <;>
  · intro f input
    refine ⟨?_, ?_, ?_, ?_⟩
    · exact processLoop_length _ input f.x_history f.y_history 0
    · exact (processLoop_histories_length _ input f.x_history f.y_history 0).1
    · exact (processLoop_histories_length _ input f.x_history f.y_history 0).2
    · intro j hj hlt
      exact processLoop_getD _ input f.x_history f.y_history 0 j (by omega) hlt

/-- Witness for C9: a one-channel filter fed two values passes the second
value through unchanged, for both filter kinds. -/
theorem filters_process_excess_passthrough_witness :
    (ButterworthFilter.new 4 1).x_history.length ≤ 1 ∧ (1 : ℕ) < 2 ∧
    ((ButterworthFilter.new 4 1).process [5, 7]).1.getD 1 0 = 7 ∧
    (NotchFilter.new 1).x_history.length ≤ 1 ∧
    ((NotchFilter.new 1).process [5, 7]).1.getD 1 0 = 7 :=
  ⟨by decide, by decide,
   (filters_process_excess_passthrough.1 (ButterworthFilter.new 4 1) [5, 7]).2.2.2 1
     (by decide) (by decide),
   by decide,
   (filters_process_excess_passthrough.2 (NotchFilter.new 1) [5, 7]).2.2.2 1
     (by decide) (by decide)⟩

/-! ## Properties of the ring-buffer push -/

/-- Under the capacity invariant, one push keeps the last `cap` elements of
the appended buffer. -/
theorem pushEvict_eq_drop (cap : ℕ) (buf : List ℚ) (v : ℚ) (h : buf.length ≤ cap) :
    pushEvict cap buf v = (buf ++ [v]).drop (buf.length + 1 - cap) := by
  simp only [pushEvict, List.length_append, List.length_singleton]
  by_cases hc : cap < buf.length + 1
  · rw [if_pos hc]
    congr 1
    omega
  · rw [if_neg hc]
    have h0 : buf.length + 1 - cap = 0 := by omega
    rw [h0, List.drop_zero]

/-- Folding pushes over a buffer that satisfies the capacity invariant keeps
exactly the last `cap` elements of the concatenation. -/
theorem foldl_pushEvict (cap : ℕ) :
    ∀ (vs : List ℚ) (buf : List ℚ), buf.length ≤ cap →
      vs.foldl (pushEvict cap) buf = (buf ++ vs).drop (buf.length + vs.length - cap) := by
  intro vs
  induction vs with
  | nil =>
    intro buf h
    simp only [List.foldl_nil, List.append_nil, List.length_nil, Nat.add_zero]
    have h0 : buf.length - cap = 0 := by omega
    rw [h0, List.drop_zero]
  | cons v rest ih =>
    intro buf h
    rw [List.foldl_cons, pushEvict_eq_drop cap buf v h]
    have hk : buf.length + 1 - cap ≤ (buf ++ [v]).length := by
      simp only [List.length_append, List.length_singleton]
      omega
    have hlen : ((buf ++ [v]).drop (buf.length + 1 - cap)).length ≤ cap := by
      simp only [List.length_drop, List.length_append, List.length_singleton]
      omega
    rw [ih _ hlen, List.length_drop,
      ← List.drop_append_of_le_length hk, List.drop_drop]
    rw [List.append_cons buf v rest]
    congr 1
    simp only [List.length_append, List.length_singleton, List.length_cons,
      List.length_nil]
    omega

/-- **C7**: for every channel buffer satisfying the capacity invariant and
every sequence of more than `cap` pushed values, the resulting window holds
exactly `cap` values, equal to the most recent `cap` pushed values in push
order; and a single push never leaves more than `cap` values. -/
theorem ring_buffer_fifo :
    ∀ (cap : ℕ) (buf vs : List ℚ), buf.length ≤ cap →
      (cap < vs.length →
        vs.foldl (pushEvict cap) buf = vs.drop (vs.length - cap) ∧
        (vs.foldl (pushEvict cap) buf).length = cap) ∧
      (∀ v, (pushEvict cap buf v).length ≤ cap) := by
  intro cap buf vs h
  constructor
  · intro hN
    have hfold := foldl_pushEvict cap vs buf h
    constructor
    · rw [hfold]
      have h1 : buf.length + vs.length - cap = buf.length + (vs.length - cap) := by
        omega
      rw [h1, List.drop_append]
    · rw [hfold]
      simp only [List.length_drop, List.length_append]
      omega
  · intro v
    rw [pushEvict_eq_drop cap buf v h]
    simp only [List.length_drop, List.length_append, List.length_singleton]
    omega

/-- Witness for C7: pushing three values into an empty two-slot window keeps
the last two in order. -/
theorem ring_buffer_fifo_witness :
    ([] : List ℚ).length ≤ 2 ∧ 2 < ([3, 4, 5] : List ℚ).length ∧
    ([3, 4, 5] : List ℚ).foldl (pushEvict 2) [] = [4, 5] ∧
    (([3, 4, 5] : List ℚ).foldl (pushEvict 2) []).length = 2 := by
  have h2 := (ring_buffer_fifo 2 [] [3, 4, 5] (by decide)).1 (by decide)
  exact ⟨by decide, by decide, h2.1.trans rfl, h2.2⟩

/-! ## Artifact clipping (Filter Chain output) -/

/-- **C6 counterexample**: on the uninitialized fallback path (here the fresh
processor state, whose filters are `None`) a channel value of 400 — pre-clip
magnitude above 300 — appears in the `FilteredEEGSample` as 285 (the clip to
300 followed by the fallback's 0.95 attenuation, main.rs line 578), not as
+300 or −300 as the claim states for both paths. -/
theorem filter_chain_clipping_counterexample :
    |(400 : ℚ)| > 300 ∧
    (EEGProcessor.new.apply_real_time_filters ⟨0, [400]⟩).1.channels = [285] ∧
    (285 : ℚ) ≠ 300 ∧ (285 : ℚ) ≠ -300 := by
  refine ⟨by decide, ?_, by decide, by decide⟩
  norm_num [EEGProcessor.apply_real_time_filters, EEGProcessor.new, clipArtifact]

/-- **C6 (amended)**: on the initialized two-stage path the output channels
are exactly the notch output mapped through the clip, where the clip sends
any value of pre-clip magnitude above 300 to exactly ±300 with its sign
preserved and leaves values within ±300 unchanged; on the uninitialized
fallback path the clipped value is additionally attenuated by the factor
0.95, so out-of-range values appear as ±285. -/
theorem filter_chain_clipping :
    (∀ (p : EEGProcessor) (s : EEGSample) (bp : ButterworthFilter) (n : NotchFilter),
      p.bandpass_filter = some bp → p.notch_filter = some n →
      (p.apply_real_time_filters s).1.channels =
        ((n.process (bp.process s.channels).1).1).map clipArtifact) ∧
    (∀ v : ℚ, 300 < |v| →
      (0 < v → clipArtifact v = 300) ∧ (v < 0 → clipArtifact v = -300) ∧
      |clipArtifact v| = 300) ∧
    (∀ v : ℚ, |v| ≤ 300 → clipArtifact v = v) ∧
    (∀ (p : EEGProcessor) (s : EEGSample),
      p.bandpass_filter = none ∨ p.notch_filter = none →
      (p.apply_real_time_filters s).1.channels =
        s.channels.map (fun v => clipArtifact v * 0.95)) := by
  refine ⟨?_, ?_, ?_, ?_⟩
  · intro p s bp n hbp hn
    simp [EEGProcessor.apply_real_time_filters, hbp, hn]
  · intro v hv
    refine ⟨?_, ?_, ?_⟩
    · intro h0
      simp [clipArtifact, hv, h0]
    · intro h0
      have h1 : ¬ 0 < v := by linarith
      simp [clipArtifact, hv, h1]
    · by_cases h0 : 0 < v
      · simp [clipArtifact, hv, h0]
      · simp [clipArtifact, hv, h0]
  · intro v hv
    have h : ¬ |v| > 300 := not_lt.mpr hv
    simp [clipArtifact, h]
  · intro p s h
    cases hbp : p.bandpass_filter with
    | none =>
      simp [EEGProcessor.apply_real_time_filters, hbp]
    | some bp =>
      cases hn : p.notch_filter with
      | none => simp [EEGProcessor.apply_real_time_filters, hbp, hn]
      | some n =>
        rcases h with h | h
        · rw [hbp] at h; exact absurd h (by simp)
        · rw [hn] at h; exact absurd h (by simp)

/-- Witness for C6: concrete instantiations of the amended clipping facts. -/
theorem filter_chain_clipping_witness :
    (({ EEGProcessor.new with
        bandpass_filter := some (ButterworthFilter.new 4 1)
        notch_filter := some (NotchFilter.new 1) } : EEGProcessor).apply_real_time_filters
          ⟨0, [1]⟩).1.channels =
      ((NotchFilter.new 1).process ((ButterworthFilter.new 4 1).process [1]).1).1.map
        clipArtifact ∧
    clipArtifact 400 = 300 ∧ clipArtifact (-400) = -300 ∧ clipArtifact 7 = 7 ∧
    (EEGProcessor.new.apply_real_time_filters ⟨0, [1]⟩).1.channels =
      [1].map (fun v => clipArtifact v * 0.95) :=
  ⟨filter_chain_clipping.1 _ ⟨0, [1]⟩ (ButterworthFilter.new 4 1) (NotchFilter.new 1)
      rfl rfl,
   (filter_chain_clipping.2.1 400 (by decide)).1 (by decide),
   (filter_chain_clipping.2.1 (-400) (by decide)).2.1 (by decide),
   filter_chain_clipping.2.2.1 7 (by decide),
   filter_chain_clipping.2.2.2 EEGProcessor.new ⟨0, [1]⟩ (Or.inl rfl)⟩

/-! ## Connection error handling -/

/-- **C8**: if a stream matches the requested name but the inlet cannot be
opened, `connect_to_lsl` returns the descriptive inlet error and the whole
processor state — in particular the `ConnectionState` — is left exactly as it
was before the call (the success path is the only mutating path). -/
theorem connect_inlet_failure_state_unchanged :
    ∀ (p : EEGProcessor) (name : String) (streams : List StreamCandidate)
      (s : StreamCandidate) (e : String),
      streams.find? (fun c => connectMatches name c) = some s →
      s.inlet_result = some e →
      (p.connect_to_lsl name (.ok streams)).2 = p ∧
      (p.connect_to_lsl name (.ok streams)).1 =
        .error ("Failed to create inlet for LSL stream " ++ name ++ ": " ++ e) := by
  intro p name streams s e hfind hinlet
  simp [EEGProcessor.connect_to_lsl, hfind, hinlet]

/-- Witness for C8: a matched one-stream environment whose inlet fails leaves
the fresh processor untouched and surfaces the inlet error. -/
theorem connect_inlet_failure_state_unchanged_witness :
    ([⟨"x", "EEG", 4, 250, "src", some "boom"⟩] : List StreamCandidate).find?
        (fun c => connectMatches "x" c) =
      some ⟨"x", "EEG", 4, 250, "src", some "boom"⟩ ∧
    (EEGProcessor.new.connect_to_lsl "x"
        (.ok [⟨"x", "EEG", 4, 250, "src", some "boom"⟩])).2 = EEGProcessor.new ∧
    (EEGProcessor.new.connect_to_lsl "x"
        (.ok [⟨"x", "EEG", 4, 250, "src", some "boom"⟩])).1 =
      .error "Failed to create inlet for LSL stream x: boom" := by
  have h := connect_inlet_failure_state_unchanged EEGProcessor.new "x"
    [⟨"x", "EEG", 4, 250, "src", some "boom"⟩]
    ⟨"x", "EEG", 4, 250, "src", some "boom"⟩ "boom" (by decide) rfl
  exact ⟨by decide, h.1, h.2.trans (by rfl)⟩

/-! ## Band-power analysis -/

/-- **C10**: `analyze_frequency_bands` is read-only: the processor state
after the call — raw windows, filtered windows, both filter states and the
connection — is exactly the state before it; only the `FrequencyBands`
collection is produced. -/
theorem analyze_frequency_bands_read_only :
    ∀ (p : EEGProcessor) (fft : List ℚ → List (ℚ × ℚ)) (timestamp : ℚ),
      (p.analyze_frequency_bands fft timestamp).2 = p ∧
      (p.analyze_frequency_bands fft timestamp).2.channel_buffers =
        p.channel_buffers ∧
      (p.analyze_frequency_bands fft timestamp).2.filtered_buffers =
        p.filtered_buffers ∧
      (p.analyze_frequency_bands fft timestamp).2.bandpass_filter =
        p.bandpass_filter ∧
      (p.analyze_frequency_bands fft timestamp).2.notch_filter =
        p.notch_filter ∧
      (p.analyze_frequency_bands fft timestamp).2.lsl_connection =
        p.lsl_connection :=
  fun _ _ _ => ⟨rfl, rfl, rfl, rfl, rfl, rfl⟩

/-- The accumulation loop of `analyze_frequency_bands`, characterized as a
filter-and-map over the enumerated buffers. -/
theorem analyze_foldl_eq (fft : List ℚ → List (ℚ × ℚ)) (ts : ℚ) :
    ∀ (l : List (ℕ × List ℚ)) (acc : List FrequencyBands),
      l.foldl (fun results cb =>
        if cb.2.length < buffer_size then results
        else results ++ [mkFrequencyBands ts cb.1 (channelBandAcc (fft cb.2))]) acc
      = acc ++ (l.filter (fun cb => decide (buffer_size ≤ cb.2.length))).map
          (fun cb => mkFrequencyBands ts cb.1 (channelBandAcc (fft cb.2))) := by
  intro l
  induction l with
  | nil => intro acc; simp
  | cons cb rest ih =>
    intro acc
    rw [List.foldl_cons]
    by_cases h : cb.2.length < buffer_size
    · rw [if_pos h]
      rw [ih acc]
      have hd : (decide (buffer_size ≤ cb.2.length)) = false := by
        simp only [decide_eq_false_iff_not]
        omega
      simp [List.filter_cons, hd]
    · rw [if_neg h]
      rw [ih]
      have hd : (decide (buffer_size ≤ cb.2.length)) = true := by
        simp only [decide_eq_true_eq]
        omega
      simp [List.filter_cons, hd]

/-- The result list of `analyze_frequency_bands` in closed form. -/
theorem analyze_fst_eq (p : EEGProcessor) (fft : List ℚ → List (ℚ × ℚ)) (ts : ℚ) :
    (p.analyze_frequency_bands fft ts).1 =
      (p.filtered_buffers.enum.filter
        (fun cb => decide (buffer_size ≤ cb.2.length))).map
          (fun cb => mkFrequencyBands ts cb.1 (channelBandAcc (fft cb.2))) := by
  have h := analyze_foldl_eq fft ts p.filtered_buffers.enum []
  simpa [EEGProcessor.analyze_frequency_bands] using h

/-- Spec-side band-power sum: total squared magnitude of the enumerated
coefficients (enumeration starting at `n`) whose frequency
`index * freq_resolution` lies in the half-open interval `[lo, hi)`. -/
def bandPowerSumFrom (lo hi : ℚ) (n : ℕ) (coeffs : List (ℚ × ℚ)) : ℚ :=
  ((coeffs.enumFrom n).map (fun ic =>
    if lo ≤ (ic.1 : ℚ) * freq_resolution ∧ (ic.1 : ℚ) * freq_resolution < hi
    then normSq ic.2 else 0)).sum

/-- Spec-side band-power sum over the full enumeration. -/
def bandPowerSum (lo hi : ℚ) (coeffs : List (ℚ × ℚ)) : ℚ :=
  bandPowerSumFrom lo hi 0 coeffs

/-- `accumBand` adds the power to the alpha accumulator exactly for
frequencies in `[8, 12)`. -/
theorem accumBand_alpha (acc : BandPowerAcc) (f p : ℚ) :
    (accumBand acc f p).alpha = acc.alpha + (if 8.0 ≤ f ∧ f < 12.0 then p else 0) := by
  unfold accumBand
  split_ifs <;> try simp_all <;> try linarith

/-- `accumBand` adds the power to the beta accumulator exactly for
frequencies in `[13, 30)`. -/
theorem accumBand_beta (acc : BandPowerAcc) (f p : ℚ) :
    (accumBand acc f p).beta = acc.beta + (if 13.0 ≤ f ∧ f < 30.0 then p else 0) := by
  unfold accumBand
  split_ifs <;> try simp_all <;> try linarith

/-- `accumBand` adds the power to the theta accumulator exactly for
frequencies in `[4, 8)`. -/
theorem accumBand_theta (acc : BandPowerAcc) (f p : ℚ) :
    (accumBand acc f p).theta = acc.theta + (if 4.0 ≤ f ∧ f < 8.0 then p else 0) := by
  unfold accumBand
  split_ifs <;> try simp_all <;> try linarith

/-- `accumBand` adds the power to the delta accumulator exactly for
frequencies in `[0.5, 4)`. -/
theorem accumBand_delta (acc : BandPowerAcc) (f p : ℚ) :
    (accumBand acc f p).delta = acc.delta + (if 0.5 ≤ f ∧ f < 4.0 then p else 0) := by
  unfold accumBand
  split_ifs <;> try simp_all <;> try linarith

/-- `accumBand` adds the power to the gamma accumulator exactly for
frequencies in `[30, 100)`. -/
theorem accumBand_gamma (acc : BandPowerAcc) (f p : ℚ) :
    (accumBand acc f p).gamma = acc.gamma + (if 30.0 ≤ f ∧ f < 100.0 then p else 0) := by
  unfold accumBand
  split_ifs <;> try simp_all <;> try linarith

/-- Frequencies below 0.5, in the `[12, 13)` gap, or at or above 100 fall
through every guard of `accumBand`: they contribute to no band. -/
theorem accumBand_gap (acc : BandPowerAcc) (f p : ℚ)
    (h : f < 0.5 ∨ ((12 : ℚ) ≤ f ∧ f < 13) ∨ (100 : ℚ) ≤ f) :
    accumBand acc f p = acc := by
  unfold accumBand
  split_ifs with h1 h2 h3 h4 h5 <;> try rfl
  all_goals exfalso
  all_goals rcases h with hg | ⟨hga, hgb⟩ | hg
  all_goals
    first
      | (obtain ⟨ha, hb⟩ := h1; linarith)
      | (obtain ⟨ha, hb⟩ := h2; linarith)
      | (obtain ⟨ha, hb⟩ := h3; linarith)
      | (obtain ⟨ha, hb⟩ := h4; linarith)
      | (obtain ⟨ha, hb⟩ := h5; linarith)

/-- The per-channel accumulation loop, projected onto one accumulator field,
equals that band's spec-side power sum. -/
theorem channelAcc_foldl_sel (sel : BandPowerAcc → ℚ) (lo hi : ℚ)
    (hsel : ∀ (acc : BandPowerAcc) (f p : ℚ),
      sel (accumBand acc f p) = sel acc + (if lo ≤ f ∧ f < hi then p else 0)) :
    ∀ (coeffs : List (ℚ × ℚ)) (n : ℕ) (acc : BandPowerAcc),
      sel ((coeffs.enumFrom n).foldl
        (fun a ic => accumBand a ((ic.1 : ℚ) * freq_resolution) (normSq ic.2)) acc) =
      sel acc + bandPowerSumFrom lo hi n coeffs := by
  intro coeffs
  induction coeffs with
  | nil => intro n acc; simp [bandPowerSumFrom]
  | cons c rest ih =>
    intro n acc
    simp only [List.enumFrom, List.foldl_cons]
    rw [ih (n + 1), hsel]
    simp only [bandPowerSumFrom, List.enumFrom, List.map_cons, List.sum_cons]
    ring

/-- **C4**: every FFT coefficient contributes its squared magnitude to
exactly the band whose half-open interval contains its frequency — the five
accumulated sums are precisely the spec-side interval sums for delta
`[0.5, 4)`, theta `[4, 8)`, alpha `[8, 12)`, beta `[13, 30)` and gamma
`[30, 100)`; frequencies below 0.5, in `[12, 13)`, or at or above 100
contribute to no band (in particular 12.5 Hz contributes to neither alpha
nor beta); and every reported band value is the square root of its band's
accumulated power sum. -/
theorem band_power_partition :
    (∀ coeffs : List (ℚ × ℚ),
      channelBandAcc coeffs =
        ⟨bandPowerSum 8.0 12.0 coeffs, bandPowerSum 13.0 30.0 coeffs,
         bandPowerSum 4.0 8.0 coeffs, bandPowerSum 0.5 4.0 coeffs,
         bandPowerSum 30.0 100.0 coeffs⟩) ∧
    (∀ (acc : BandPowerAcc) (f p : ℚ),
      f < 0.5 ∨ ((12 : ℚ) ≤ f ∧ f < 13) ∨ (100 : ℚ) ≤ f →
      accumBand acc f p = acc) ∧
    (∀ (acc : BandPowerAcc) (p : ℚ), accumBand acc 12.5 p = acc) ∧
    (∀ (p : EEGProcessor) (fft : List ℚ → List (ℚ × ℚ)) (ts : ℚ)
      (fb : FrequencyBands),
      fb ∈ (p.analyze_frequency_bands fft ts).1 →
      ∃ cb ∈ p.filtered_buffers.enum, buffer_size ≤ cb.2.length ∧
        fb = mkFrequencyBands ts cb.1 (channelBandAcc (fft cb.2)) ∧
        fb.alpha = Real.sqrt ((channelBandAcc (fft cb.2)).alpha : ℝ) ∧
        fb.beta = Real.sqrt ((channelBandAcc (fft cb.2)).beta : ℝ) ∧
        fb.theta = Real.sqrt ((channelBandAcc (fft cb.2)).theta : ℝ) ∧
        fb.delta = Real.sqrt ((channelBandAcc (fft cb.2)).delta : ℝ) ∧
        fb.gamma = Real.sqrt ((channelBandAcc (fft cb.2)).gamma : ℝ)) := by
  refine ⟨?_, ?_, ?_, ?_⟩
  · intro coeffs
    have key : ∀ (b : BandPowerAcc) (A B T D G : ℚ),
        b.alpha = A → b.beta = B → b.theta = T → b.delta = D → b.gamma = G →
        b = ⟨A, B, T, D, G⟩ := by
      rintro ⟨ba, bb, bt, bd, bg⟩ A B T D G rfl rfl rfl rfl rfl
      rfl
    refine key _ _ _ _ _ _ ?_ ?_ ?_ ?_ ?_
    · simpa [channelBandAcc, bandPowerSum] using
        channelAcc_foldl_sel (fun x => x.alpha) 8.0 12.0 accumBand_alpha coeffs 0
          ⟨0, 0, 0, 0, 0⟩
    · simpa [channelBandAcc, bandPowerSum] using
        channelAcc_foldl_sel (fun x => x.beta) 13.0 30.0 accumBand_beta coeffs 0
          ⟨0, 0, 0, 0, 0⟩
    · simpa [channelBandAcc, bandPowerSum] using
        channelAcc_foldl_sel (fun x => x.theta) 4.0 8.0 accumBand_theta coeffs 0
          ⟨0, 0, 0, 0, 0⟩
    · simpa [channelBandAcc, bandPowerSum] using
        channelAcc_foldl_sel (fun x => x.delta) 0.5 4.0 accumBand_delta coeffs 0
          ⟨0, 0, 0, 0, 0⟩
    · simpa [channelBandAcc, bandPowerSum] using
        channelAcc_foldl_sel (fun x => x.gamma) 30.0 100.0 accumBand_gamma coeffs 0
          ⟨0, 0, 0, 0, 0⟩
  · exact accumBand_gap
  · intro acc p
    exact accumBand_gap acc 12.5 p (Or.inr (Or.inl ⟨by norm_num, by norm_num⟩))
  · intro p fft ts fb hmem
    rw [analyze_fst_eq] at hmem
    obtain ⟨cb, hcb, rfl⟩ := List.mem_map.mp hmem
    have hcb2 := List.mem_filter.mp hcb
    refine ⟨cb, hcb2.1, ?_, rfl, rfl, rfl, rfl, rfl, rfl⟩
    exact of_decide_eq_true hcb2.2

set_option maxRecDepth 4000 in
/-- Witness for C4: a coefficient at 150 Hz (above the 100 Hz cutoff) leaves
every accumulator unchanged, and the one full-window channel of a concrete
state yields a result whose reported values are square roots of its band
sums. -/
theorem band_power_partition_witness :
    ((100 : ℚ) ≤ 150 ∧ accumBand ⟨1, 2, 3, 4, 5⟩ 150 9 = ⟨1, 2, 3, 4, 5⟩) ∧
    (mkFrequencyBands 0 0 (channelBandAcc []) ∈
      (({ EEGProcessor.new with
          filtered_buffers := [List.replicate 512 0] } : EEGProcessor).analyze_frequency_bands
        (fun _ => []) 0).1) ∧
    (∃ cb ∈ ({ EEGProcessor.new with
          filtered_buffers := [List.replicate 512 0] } : EEGProcessor).filtered_buffers.enum,
      buffer_size ≤ cb.2.length ∧
      mkFrequencyBands 0 0 (channelBandAcc []) =
        mkFrequencyBands 0 cb.1 (channelBandAcc []) ∧
      (mkFrequencyBands 0 0 (channelBandAcc [])).alpha =
        Real.sqrt ((channelBandAcc []).alpha : ℝ) ∧
      (mkFrequencyBands 0 0 (channelBandAcc [])).beta =
        Real.sqrt ((channelBandAcc []).beta : ℝ) ∧
      (mkFrequencyBands 0 0 (channelBandAcc [])).theta =
        Real.sqrt ((channelBandAcc []).theta : ℝ) ∧
      (mkFrequencyBands 0 0 (channelBandAcc [])).delta =
        Real.sqrt ((channelBandAcc []).delta : ℝ) ∧
      (mkFrequencyBands 0 0 (channelBandAcc [])).gamma =
        Real.sqrt ((channelBandAcc []).gamma : ℝ)) := by
  have hmem : mkFrequencyBands 0 0 (channelBandAcc []) ∈
      (({ EEGProcessor.new with
          filtered_buffers := [List.replicate 512 0] } : EEGProcessor).analyze_frequency_bands
        (fun _ => []) 0).1 := by
    simp [analyze_fst_eq, List.enum, List.enumFrom, buffer_size]
  exact ⟨⟨by decide,
    band_power_partition.2.1 ⟨1, 2, 3, 4, 5⟩ 150 9 (Or.inr (Or.inr (by decide)))⟩,
    hmem,
    band_power_partition.2.2.2 _ (fun _ => []) 0 _ hmem⟩

/-- **C5**: a channel of the store gets a `FrequencyBands` result in an
analysis cycle exactly according to its filtered window: a window of exactly
`buffer_size` (512) samples always yields a result for that channel, and a
window of fewer samples never does. -/
theorem band_power_full_window_iff :
    ∀ (p : EEGProcessor) (fft : List ℚ → List (ℚ × ℚ)) (ts : ℚ) (ch : ℕ),
      ch < p.filtered_buffers.length →
      (((p.filtered_buffers.getD ch []).length = buffer_size →
        ∃ fb ∈ (p.analyze_frequency_bands fft ts).1, fb.channel = ch) ∧
       ((p.filtered_buffers.getD ch []).length < buffer_size →
        ∀ fb ∈ (p.analyze_frequency_bands fft ts).1, fb.channel ≠ ch)) := by
  intro p fft ts ch hch
  constructor
  · intro hfull
    refine ⟨mkFrequencyBands ts ch (channelBandAcc (fft (p.filtered_buffers.getD ch []))),
      ?_, rfl⟩
    rw [analyze_fst_eq]
    refine List.mem_map.mpr ⟨(ch, p.filtered_buffers.getD ch []), ?_, rfl⟩
    refine List.mem_filter.mpr ⟨?_, ?_⟩
    · exact List.mem_enum_iff_getElem?.mpr
        (by rw [List.getElem?_eq_getElem hch, List.getD_eq_getElem _ _ hch])
    · simp only [decide_eq_true_eq]
      omega
  · intro hpart fb hmem hchan
    rw [analyze_fst_eq] at hmem
    obtain ⟨cb, hcb, rfl⟩ := List.mem_map.mp hmem
    have hcb2 := List.mem_filter.mp hcb
    have hsz : buffer_size ≤ cb.2.length := of_decide_eq_true hcb2.2
    have hget := List.mem_enum_iff_getElem?.mp hcb2.1
    have hch1 : cb.1 = ch := hchan
    rw [hch1] at hget
    have hbuf : cb.2 = p.filtered_buffers.getD ch [] := by
      rw [List.getD_eq_getElem _ _ hch]
      have he := List.getElem?_eq_getElem hch
      rw [he] at hget
      exact (Option.some.injEq _ _ ▸ hget : _) |>.symm ▸ rfl
    rw [hbuf] at hsz
    omega

set_option maxRecDepth 8000 in
/-- Witness for C5: of two channels with windows of 512 and 511 samples, the
full one yields a result and the short one never does. -/
theorem band_power_full_window_iff_witness :
    ((0 : ℕ) < ({ EEGProcessor.new with
        filtered_buffers := [List.replicate 512 0, List.replicate 511 0] }
          : EEGProcessor).filtered_buffers.length ∧
      (({ EEGProcessor.new with
        filtered_buffers := [List.replicate 512 0, List.replicate 511 0] }
          : EEGProcessor).filtered_buffers.getD 0 []).length = buffer_size ∧
      ∃ fb ∈ (({ EEGProcessor.new with
        filtered_buffers := [List.replicate 512 0, List.replicate 511 0] }
          : EEGProcessor).analyze_frequency_bands (fun _ => []) 0).1,
        fb.channel = 0) ∧
    ((1 : ℕ) < ({ EEGProcessor.new with
        filtered_buffers := [List.replicate 512 0, List.replicate 511 0] }
          : EEGProcessor).filtered_buffers.length ∧
      (({ EEGProcessor.new with
        filtered_buffers := [List.replicate 512 0, List.replicate 511 0] }
          : EEGProcessor).filtered_buffers.getD 1 []).length < buffer_size ∧
      ∀ fb ∈ (({ EEGProcessor.new with
        filtered_buffers := [List.replicate 512 0, List.replicate 511 0] }
          : EEGProcessor).analyze_frequency_bands (fun _ => []) 0).1,
        fb.channel ≠ 1) := by
  have h0 := band_power_full_window_iff
    { EEGProcessor.new with
      filtered_buffers := [List.replicate 512 0, List.replicate 511 0] }
    (fun _ => []) 0 0 (by simp)
  have h1 := band_power_full_window_iff
    { EEGProcessor.new with
      filtered_buffers := [List.replicate 512 0, List.replicate 511 0] }
    (fun _ => []) 0 1 (by simp)
  exact ⟨⟨by simp, by simp [buffer_size], h0.1 (by simp [buffer_size])⟩,
    ⟨by simp, by simp [buffer_size], h1.2 (by simp [buffer_size])⟩⟩

/-! ## Channel-count consistency -/

/-- The spec's channel-count consistency invariant: the recorded channel
count equals the number of raw windows, filtered windows, and per-channel
histories of each initialized filter. -/
def channelConsistent (p : EEGProcessor) : Prop :=
  p.channel_buffers.length = p.lsl_connection.channel_count ∧
  p.filtered_buffers.length = p.lsl_connection.channel_count ∧
  (∀ f, p.bandpass_filter = some f →
    f.x_history.length = p.lsl_connection.channel_count ∧
    f.y_history.length = p.lsl_connection.channel_count) ∧
  (∀ f, p.notch_filter = some f →
    f.x_history.length = p.lsl_connection.channel_count ∧
    f.y_history.length = p.lsl_connection.channel_count)

/-- A fold whose step preserves the lengths of both components preserves them
globally. -/
theorem foldl_pair_lengths {α : Type}
    (f : (List (List ℚ) × List (List ℚ)) → α → List (List ℚ) × List (List ℚ))
    (hf : ∀ acc x, (f acc x).1.length = acc.1.length ∧
      (f acc x).2.length = acc.2.length) :
    ∀ (l : List α) (acc : List (List ℚ) × List (List ℚ)),
      (l.foldl f acc).1.length = acc.1.length ∧
      (l.foldl f acc).2.length = acc.2.length := by
  intro l
  induction l with
  | nil => intro acc; exact ⟨rfl, rfl⟩
  | cons x rest ih =>
    intro acc
    rw [List.foldl_cons]
    exact ⟨(ih (f acc x)).1.trans (hf acc x).1, (ih (f acc x)).2.trans (hf acc x).2⟩

/-- `update_buffers` changes neither the number of channels of either buffer
list nor the connection or filter state. -/
theorem update_buffers_state (p : EEGProcessor) (s : EEGSample)
    (fs : FilteredEEGSample) :
    (p.update_buffers s fs).channel_buffers.length = p.channel_buffers.length ∧
    (p.update_buffers s fs).filtered_buffers.length = p.filtered_buffers.length ∧
    (p.update_buffers s fs).lsl_connection = p.lsl_connection ∧
    (p.update_buffers s fs).bandpass_filter = p.bandpass_filter ∧
    (p.update_buffers s fs).notch_filter = p.notch_filter := by
  have hf : ∀ (acc : List (List ℚ) × List (List ℚ)) (iv : ℕ × ℚ × ℚ),
      ((fun (bufs : List (List ℚ) × List (List ℚ)) (iv : ℕ × ℚ × ℚ) =>
        (if iv.1 < bufs.1.length
          then bufs.1.set iv.1 (pushEvict buffer_size (bufs.1.getD iv.1 []) iv.2.1)
          else bufs.1,
         if iv.1 < bufs.2.length
          then bufs.2.set iv.1 (pushEvict buffer_size (bufs.2.getD iv.1 []) iv.2.2)
          else bufs.2)) acc iv).1.length = acc.1.length ∧
      ((fun (bufs : List (List ℚ) × List (List ℚ)) (iv : ℕ × ℚ × ℚ) =>
        (if iv.1 < bufs.1.length
          then bufs.1.set iv.1 (pushEvict buffer_size (bufs.1.getD iv.1 []) iv.2.1)
          else bufs.1,
         if iv.1 < bufs.2.length
          then bufs.2.set iv.1 (pushEvict buffer_size (bufs.2.getD iv.1 []) iv.2.2)
          else bufs.2)) acc iv).2.length = acc.2.length := by
    intro acc iv
    constructor <;> dsimp only <;> split_ifs <;> simp [List.length_set]
  have h := foldl_pair_lengths _ hf ((s.channels.zip fs.channels).enum)
    (p.channel_buffers, p.filtered_buffers)
  exact ⟨h.1, h.2, rfl, rfl, rfl⟩

/-- `apply_real_time_filters` preserves the consistency invariant: buffers
and connection are untouched, and processing preserves each filter's
per-channel history count. -/
theorem apply_filters_consistent (p : EEGProcessor) (s : EEGSample)
    (h : channelConsistent p) :
    channelConsistent (p.apply_real_time_filters s).2 := by
  obtain ⟨h1, h2, h3, h4⟩ := h
  cases hbp : p.bandpass_filter with
  | none =>
    have hstate : (p.apply_real_time_filters s).2 = p := by
      simp [EEGProcessor.apply_real_time_filters, hbp]
    rw [hstate]
    exact ⟨h1, h2, h3, h4⟩
  | some bp =>
    cases hn : p.notch_filter with
    | none =>
      have hstate : (p.apply_real_time_filters s).2 = p := by
        simp [EEGProcessor.apply_real_time_filters, hbp, hn]
      rw [hstate]
      exact ⟨h1, h2, h3, h4⟩
    | some n =>
      have hbp' := h3 bp hbp
      have hn' := h4 n hn
      have hstate : (p.apply_real_time_filters s).2 =
          { p with
            bandpass_filter := some (bp.process s.channels).2
            notch_filter := some ((n.process (bp.process s.channels).1).2) } := by
        simp [EEGProcessor.apply_real_time_filters, hbp, hn]
      rw [hstate]
      refine ⟨h1, h2, ?_, ?_⟩
      · intro f hf
        have hf' : some (bp.process s.channels).2 = some f := hf
        obtain rfl := Option.some.inj hf'
        exact ⟨((filters_process_excess_passthrough.1 bp s.channels).2.1).trans hbp'.1,
          ((filters_process_excess_passthrough.1 bp s.channels).2.2.1).trans hbp'.2⟩
      · intro f hf
        have hf' : some ((n.process (bp.process s.channels).1).2) = some f := hf
        obtain rfl := Option.some.inj hf'
        exact ⟨((filters_process_excess_passthrough.2 n _).2.1).trans hn'.1,
          ((filters_process_excess_passthrough.2 n _).2.2.1).trans hn'.2⟩

/-- `update_buffers` preserves the consistency invariant. -/
theorem update_buffers_consistent (p : EEGProcessor) (s : EEGSample)
    (fs : FilteredEEGSample) (h : channelConsistent p) :
    channelConsistent (p.update_buffers s fs) := by
  obtain ⟨h1, h2, h3, h4⟩ := h
  have hs := update_buffers_state p s fs
  refine ⟨?_, ?_, ?_, ?_⟩
  · rw [hs.2.2.1]
    exact hs.1.trans h1
  · rw [hs.2.2.1]
    exact hs.2.1.trans h2
  · intro f hf
    rw [hs.2.2.2.1] at hf
    rw [hs.2.2.1]
    exact h3 f hf
  · intro f hf
    rw [hs.2.2.2.2] at hf
    rw [hs.2.2.1]
    exact h4 f hf

/-- The processor state after one tick: unchanged unless a real sample was
obtained, in which case it is the filtered-and-buffered state. -/
theorem tick_fst (p : EEGProcessor) (c : LoopCounters) (ts : ℚ)
    (pull : Option (List ℚ × ℚ)) (fft : List ℚ → List (ℚ × ℚ)) :
    (tick p c ts pull fft).1 =
      if p.lsl_connection.is_real_connection then
        match p.get_lsl_sample pull with
        | some s => (p.apply_real_time_filters s).2.update_buffers s
            (p.apply_real_time_filters s).1
        | none => p
      else p := by
  unfold tick
  by_cases hreal : p.lsl_connection.is_real_connection
  · rw [if_pos hreal, if_pos hreal]
    cases hget : p.get_lsl_sample pull with
    | none => rfl
    | some s =>
      by_cases hc : 250 ≤ msOf ts - c.last_fft_time
      · simp only [if_pos hc]
        rfl
      · simp only [if_neg hc]
  · rw [if_neg hreal, if_neg hreal]

/-- `connect_to_lsl` preserves the consistency invariant: failure paths leave
the state untouched and the success path resizes all four structures to the
new channel count together. -/
theorem connect_consistent (p : EEGProcessor) (name : String)
    (env : ResolveOutcome) (h : channelConsistent p) :
    channelConsistent (p.connect_to_lsl name env).2 := by
  cases env with
  | err e => exact h
  | ok streams =>
    cases hfind : streams.find? (fun s => connectMatches name s) with
    | none =>
      simp only [EEGProcessor.connect_to_lsl, hfind]
      exact h
    | some s =>
      cases hinlet : s.inlet_result with
      | some e =>
        simp only [EEGProcessor.connect_to_lsl, hfind, hinlet]
        exact h
      | none =>
        simp only [EEGProcessor.connect_to_lsl, hfind, hinlet]
        refine ⟨?_, ?_, ?_, ?_⟩
        · simp
        · simp
        · intro f hf
          obtain rfl := Option.some.inj hf
          constructor <;> simp [ButterworthFilter.new]
        · intro f hf
          obtain rfl := Option.some.inj hf
          constructor <;> simp [NotchFilter.new]

/-- One tick preserves the consistency invariant. -/
theorem tick_consistent (p : EEGProcessor) (c : LoopCounters) (ts : ℚ)
    (pull : Option (List ℚ × ℚ)) (fft : List ℚ → List (ℚ × ℚ))
    (h : channelConsistent p) :
    channelConsistent (tick p c ts pull fft).1 := by
  rw [tick_fst]
  by_cases hreal : p.lsl_connection.is_real_connection
  · rw [if_pos hreal]
    cases hget : p.get_lsl_sample pull with
    | none => exact h
    | some s =>
      exact update_buffers_consistent _ _ _ (apply_filters_consistent p s h)
  · rw [if_neg hreal]
    exact h

/-- **C2 counterexample**: connecting to a 4-channel stream and then
disconnecting leaves the recorded channel count at the default 8 while both
buffer lists still hold 4 per-channel windows (`disconnect_lsl` resets the
count and drops the filters but never resizes the buffers, main.rs lines
474-485) — the consistency the claim asserts after every disconnect fails. -/
theorem channel_count_consistency_counterexample :
    ((EEGProcessor.new.connect_to_lsl "x"
      (.ok [⟨"x", "EEG", 4, 250, "src", none⟩])).2.disconnect_lsl).lsl_connection.channel_count
        = 8 ∧
    ((EEGProcessor.new.connect_to_lsl "x"
      (.ok [⟨"x", "EEG", 4, 250, "src", none⟩])).2.disconnect_lsl).channel_buffers.length
        = 4 ∧
    ¬ channelConsistent ((EEGProcessor.new.connect_to_lsl "x"
      (.ok [⟨"x", "EEG", 4, 250, "src", none⟩])).2.disconnect_lsl) := by
  refine ⟨rfl, rfl, fun h => absurd h.1 (by decide)⟩

/-- **C2 (amended)**: the channel-count consistency invariant holds for the
initial state, is preserved by every `connect_to_lsl` call (on failure the
state is untouched; on success all four structures are resized together),
and is preserved by every scheduler tick.  (After `disconnect_lsl` it can
fail, as the counterexample shows: the count resets to 8 but the buffers
keep their previous channel count.) -/
theorem channel_count_consistency :
    channelConsistent EEGProcessor.new ∧
    (∀ (p : EEGProcessor) (name : String) (env : ResolveOutcome),
      channelConsistent p → channelConsistent (p.connect_to_lsl name env).2) ∧
    (∀ (p : EEGProcessor) (c : LoopCounters) (ts : ℚ)
      (pull : Option (List ℚ × ℚ)) (fft : List ℚ → List (ℚ × ℚ)),
      channelConsistent p → channelConsistent (tick p c ts pull fft).1) := by
  refine ⟨?_, ?_, ?_⟩
  · refine ⟨by simp [EEGProcessor.new, LSLConnection.new], by simp [EEGProcessor.new, LSLConnection.new], ?_, ?_⟩
    · intro f hf
      simp [EEGProcessor.new] at hf
    · intro f hf
      simp [EEGProcessor.new] at hf
  · intro p name env h
    exact connect_consistent p name env h
  · intro p c ts pull fft h
    exact tick_consistent p c ts pull fft h

/-- Witness for C2: the invariant holds concretely for the fresh state, after
a concrete successful 4-channel connect, and after a tick of the fresh
state. -/
theorem channel_count_consistency_witness :
    channelConsistent EEGProcessor.new ∧
    channelConsistent ((EEGProcessor.new.connect_to_lsl "x"
      (.ok [⟨"x", "EEG", 4, 250, "src", none⟩])).2) ∧
    channelConsistent ((tick EEGProcessor.new ⟨0, 0, 0⟩ 0 none (fun _ => [])).1) :=
  ⟨channel_count_consistency.1,
   channel_count_consistency.2.1 EEGProcessor.new "x"
     (.ok [⟨"x", "EEG", 4, 250, "src", none⟩]) channel_count_consistency.1,
   channel_count_consistency.2.2 EEGProcessor.new ⟨0, 0, 0⟩ 0 none (fun _ => [])
     channel_count_consistency.1⟩

/-! ## Scheduler tick behaviour -/

/-- **C1 counterexample**: a tick of the fresh (non-real-mode) state neither
synthesizes nor processes nor emits anything — the loop's non-real branch
only logs and sleeps (main.rs lines 804-808); there is no sample synthesizer
anywhere in the source. -/
theorem nonreal_tick_skips_counterexample :
    EEGProcessor.new.lsl_connection.is_real_connection = false ∧
    (tick EEGProcessor.new ⟨5, 0, 0⟩ 2 none (fun _ => [])).2.2 = [] ∧
    (tick EEGProcessor.new ⟨5, 0, 0⟩ 2 none (fun _ => [])).1 = EEGProcessor.new := by
  refine ⟨rfl, rfl, rfl⟩

/-- **C1 (amended)**: whenever the scheduler ticks while
`is_real_connection` is false, the tick does nothing at all: no sample is
synthesized or obtained, the filter chain and buffers are untouched, and
nothing is emitted; only the sample counter advances. -/
theorem nonreal_tick_skips :
    ∀ (p : EEGProcessor) (c : LoopCounters) (ts : ℚ)
      (pull : Option (List ℚ × ℚ)) (fft : List ℚ → List (ℚ × ℚ)),
      p.lsl_connection.is_real_connection = false →
      tick p c ts pull fft =
        (p, { c with sample_count := c.sample_count + 1 }, []) := by
  intro p c ts pull fft h
  unfold tick
  rw [if_neg (by simp [h])]

/-- Witness for C1: the fresh state is in non-real mode and its tick leaves
the state unchanged and emits nothing. -/
theorem nonreal_tick_skips_witness :
    EEGProcessor.new.lsl_connection.is_real_connection = false ∧
    tick EEGProcessor.new ⟨0, 0, 0⟩ 0 none (fun _ => []) =
      (EEGProcessor.new, ⟨1, 0, 0⟩, []) :=
  ⟨rfl, (nonreal_tick_skips EEGProcessor.new ⟨0, 0, 0⟩ 0 none (fun _ => []) rfl).trans rfl⟩

/-- **C3 counterexample**: a real-mode tick at elapsed time 1 s whose LSL
pull returns timestamp 42 emits the raw sample with timestamp 42, not the
scheduler's elapsed-time value 1 — the sample's timestamp is the one the
inlet pull supplied (main.rs lines 520-530), while the elapsed time is used
for the band-power results and cadence bookkeeping only. -/
theorem sample_timestamp_from_lsl_counterexample :
    (tick
      { channel_buffers := [[]]
        filtered_buffers := [[]]
        lsl_connection :=
          { stream_info := none
            channel_count := 1
            is_real_connection := true
            stream_name := some "s" }
        bandpass_filter := none
        notch_filter := none } ⟨1, 0, 0⟩ 1 (some ([1], 42)) (fun _ => [])).2.2 =
      [Emission.eeg_sample ⟨42, [1]⟩,
       Emission.filtered_eeg_sample ⟨42, [0.95]⟩,
       Emission.frequency_bands []] ∧
    (42 : ℚ) ≠ 1 := by
  constructor
  · norm_num [tick, EEGProcessor.get_lsl_sample, msOf,
      EEGProcessor.apply_real_time_filters, EEGProcessor.update_buffers,
      EEGProcessor.analyze_frequency_bands, clipArtifact, pushEvict, buffer_size,
      List.range_succ]
  · norm_num

/-- **C3 (amended)**: a raw `EEGSample` obtained on a tick carries the
timestamp returned by the LSL pull (not the scheduler's elapsed time), and it
is the emitted raw sample on emitting ticks; the scheduler's elapsed-time
value is instead the timestamp carried by every `FrequencyBands` result. -/
theorem sample_timestamp_from_lsl :
    (∀ (p : EEGProcessor) (vals : List ℚ) (ts : ℚ) (s : EEGSample),
      p.get_lsl_sample (some (vals, ts)) = some s → s.timestamp = ts) ∧
    (∀ (p : EEGProcessor) (fft : List ℚ → List (ℚ × ℚ)) (t : ℚ)
      (fb : FrequencyBands),
      fb ∈ (p.analyze_frequency_bands fft t).1 → fb.timestamp = t) ∧
    (∀ (p : EEGProcessor) (c : LoopCounters) (t : ℚ)
      (pull : Option (List ℚ × ℚ)) (fft : List ℚ → List (ℚ × ℚ)) (s : EEGSample),
      p.get_lsl_sample pull = some s → (c.sample_count + 1) % 2 = 0 →
      Emission.eeg_sample s ∈ (tick p c t pull fft).2.2) := by
  refine ⟨?_, ?_, ?_⟩
  · intro p vals ts s hget
    unfold EEGProcessor.get_lsl_sample at hget
    by_cases hreal : p.lsl_connection.is_real_connection = false
    · rw [if_pos hreal] at hget
      exact absurd hget (by simp)
    · rw [if_neg hreal] at hget
      cases hname : p.lsl_connection.stream_name with
      | none =>
        rw [hname] at hget
        exact absurd hget (by simp)
      | some nm =>
        rw [hname] at hget
        obtain rfl := Option.some.inj hget
        rfl
  · intro p fft t fb hmem
    rw [analyze_fst_eq] at hmem
    obtain ⟨cb, hcb, rfl⟩ := List.mem_map.mp hmem
    rfl
  · intro p c t pull fft s hget hpar
    have hreal : p.lsl_connection.is_real_connection = true := by
      by_contra hr
      have hr' : p.lsl_connection.is_real_connection = false := by
        simpa using hr
      unfold EEGProcessor.get_lsl_sample at hget
      rw [if_pos hr'] at hget
      exact Option.noConfusion hget
    unfold tick
    rw [if_pos hreal, hget]
    by_cases hc : 250 ≤ msOf t - c.last_fft_time
    · simp [hpar, hc]
    · simp [hpar, hc]

set_option maxRecDepth 8000 in
/-- Witness for C3: a concrete pull with LSL timestamp 42 yields a sample
with timestamp 42, a concrete full-window analysis at elapsed time 7 stamps
its result with 7, and the concrete emitting tick contains that raw
sample. -/
theorem sample_timestamp_from_lsl_witness :
    (({ channel_buffers := [[]]
        filtered_buffers := [[]]
        lsl_connection :=
          { stream_info := none
            channel_count := 1
            is_real_connection := true
            stream_name := some "s" }
        bandpass_filter := none
        notch_filter := none } : EEGProcessor).get_lsl_sample (some ([1], 42)) =
      some ⟨42, [1]⟩ ∧
     (⟨42, [1]⟩ : EEGSample).timestamp = 42) ∧
    (mkFrequencyBands 7 0 (channelBandAcc []) ∈
      (({ EEGProcessor.new with
          filtered_buffers := [List.replicate 512 0] } : EEGProcessor).analyze_frequency_bands
        (fun _ => []) 7).1 ∧
     (mkFrequencyBands 7 0 (channelBandAcc [])).timestamp = 7) ∧
    ((⟨1, 0, 0⟩ : LoopCounters).sample_count + 1) % 2 = 0 ∧
    Emission.eeg_sample ⟨42, [1]⟩ ∈
      (tick
        { channel_buffers := [[]]
          filtered_buffers := [[]]
          lsl_connection :=
            { stream_info := none
              channel_count := 1
              is_real_connection := true
              stream_name := some "s" }
          bandpass_filter := none
          notch_filter := none } ⟨1, 0, 0⟩ 1 (some ([1], 42)) (fun _ => [])).2.2 := by
  have hmem : mkFrequencyBands 7 0 (channelBandAcc []) ∈
      (({ EEGProcessor.new with
          filtered_buffers := [List.replicate 512 0] } : EEGProcessor).analyze_frequency_bands
        (fun _ => []) 7).1 := by
    simp [analyze_fst_eq, List.enum, List.enumFrom, buffer_size]
  have hget :
      ({ channel_buffers := [[]]
         filtered_buffers := [[]]
         lsl_connection :=
           { stream_info := none
             channel_count := 1
             is_real_connection := true
             stream_name := some "s" }
         bandpass_filter := none
         notch_filter := none } : EEGProcessor).get_lsl_sample (some ([1], 42)) =
        some ⟨42, [1]⟩ := rfl
  refine ⟨⟨hget, sample_timestamp_from_lsl.1 _ [1] 42 ⟨42, [1]⟩ hget⟩,
    ⟨hmem, sample_timestamp_from_lsl.2.1 _ (fun _ => []) 7 _ hmem⟩,
    by decide,
    sample_timestamp_from_lsl.2.2 _ ⟨1, 0, 0⟩ 1 (some ([1], 42)) (fun _ => [])
      ⟨42, [1]⟩ hget (by decide)⟩
